import Mathlib

/-
Shallow embedding of the indicator engine in src/stock_data/indicators.py
together with the record types of src/schema/tushare.py and
src/schema/indicators.py.  Optional decimal values are modelled as
Option ℚ (absence means "not reported"); Python lists become Lean lists;
the per-index loops that append one value per input position become maps
over List.range, and the single stateful loop (Wilder ATR) becomes a
tail-recursive scan with an explicit accumulator.
-/

/-- One raw daily bar, mirroring schema.tushare.TushareDailyItem.
The field named open in the source is rendered open' because open is a
Lean keyword. -/
structure TushareDailyItem where
  ts_code : String
  trade_date : String
  open' : Option ℚ := none
  high : Option ℚ := none
  low : Option ℚ := none
  close : Option ℚ := none
  pre_close : Option ℚ := none
  change : Option ℚ := none
  pct_chg : Option ℚ := none
  vol : Option ℚ := none
  amount : Option ℚ := none
  deriving DecidableEq

/-- An enhanced daily bar, mirroring schema.indicators.EnhancedDailyItem:
the raw bar plus the seven derived indicator fields. -/
structure EnhancedDailyItem extends TushareDailyItem where
  avg_vol_20 : Option ℚ := none
  vol_ratio_20 : Option ℚ := none
  ma20 : Option ℚ := none
  ma60 : Option ℚ := none
  atr14 : Option ℚ := none
  prev_high_20 : Option ℚ := none
  prev_low_20 : Option ℚ := none
  deriving DecidableEq

/-- The error cases raised by the engine (class IndicatorsError in the
source, with its two raise sites: empty input and unsupported ATR
method). -/
inductive IndicatorsError where
  | emptyInput : IndicatorsError
  | unsupportedAtrMethod (method : String) : IndicatorsError
  deriving DecidableEq

/-- Python list slice xs[start:stop] for nonnegative start and stop
(the only case the embedded code exercises). -/
def pyslice (xs : List α) (start stop : ℕ) : List α :=
  (xs.drop start).take (stop - start)

/-- Embedding of _calculate_avg_vol: trailing partial-at-start window of
width window; mean of the non-null volumes in the window, null when the
window holds no non-null volume.  Python's start = max(0, i - window + 1)
is the truncated subtraction i + 1 - window. -/
def _calculate_avg_vol (vols : List (Option ℚ)) (window : ℕ) : List (Option ℚ) :=
  (List.range vols.length).map fun i =>
    let window_vols := (pyslice vols (i + 1 - window) (i + 1)).filterMap id
    if window_vols = [] then none
    else some (window_vols.sum / (window_vols.length : ℚ))

/-- Embedding of the volume-multiple pass (the function between
_calculate_avg_vol and _calculate_ma in the source): current volume
divided by the average volume when both are present and the average is
positive, null otherwise. -/
def _calculate_vol_multiple (vols avg_vols : List (Option ℚ)) : List (Option ℚ) :=
  (vols.zip avg_vols).map fun p =>
    match p with
    | (some vol, some avg_vol) =>
        if avg_vol > 0 then some (vol / avg_vol) else none
    | _ => none

/-- Embedding of _calculate_ma: strict window of width window; Python's
comparison i < window - 1 over the integers is i + 1 < window over ℕ. -/
def _calculate_ma (prices : List (Option ℚ)) (window : ℕ) : List (Option ℚ) :=
  (List.range prices.length).map fun i =>
    if i + 1 < window then none
    else
      let window_prices := (pyslice prices (i + 1 - window) (i + 1)).filterMap id
      if window_prices.length = window then
        some (window_prices.sum / (window : ℚ))
      else none

/-- Embedding of step 1 of _calculate_atr: the True Range series. -/
def trueRanges (highs lows closes : List (Option ℚ)) : List (Option ℚ) :=
  (List.range highs.length).map fun i =>
    let high := highs.getD i none
    let low := lows.getD i none
    let close := closes.getD i none
    let prev_close := if i > 0 then closes.getD (i - 1) none else none
    match high, low, close with
    | some h, some l, some _ =>
        match prev_close with
        | none => some (h - l)
        | some pc => some (max (h - l) (max |h - pc| |l - pc|))
    | _, _, _ => none

/-- Embedding of _calculate_atr_sma: all-or-nothing window of width
window over the True Range series. -/
def _calculate_atr_sma (trs : List (Option ℚ)) (window : ℕ) : List (Option ℚ) :=
  (List.range trs.length).map fun i =>
    if i + 1 < window then none
    else
      let window_trs := (pyslice trs (i + 1 - window) (i + 1)).filterMap id
      if window_trs.length = window then
        some (window_trs.sum / (window : ℚ))
      else none

/-- One iteration of the loop body of _calculate_atr_wilder at position i
with accumulator atr_prev: returns (appended value, new accumulator).
Python's i < window - 1 and i == window - 1 over the integers are
i + 1 < window and i + 1 = window over ℕ. -/
def wilderStep (trs : List (Option ℚ)) (window : ℕ) (i : ℕ) (atr_prev : Option ℚ) :
    Option ℚ × Option ℚ :=
  if i + 1 < window then (none, atr_prev)
  else if i + 1 = window then
    if ((trs.take (i + 1)).filterMap id).length = window then
      (some (((trs.take (i + 1)).filterMap id).sum / (window : ℚ)),
       some (((trs.take (i + 1)).filterMap id).sum / (window : ℚ)))
    else (none, atr_prev)
  else
    match trs.getD i none, atr_prev with
    | some tr, some prev =>
        (some ((prev * ((window : ℚ) - 1) + tr) / (window : ℚ)),
         some ((prev * ((window : ℚ) - 1) + tr) / (window : ℚ)))
    | _, _ => (none, none)

/-- The loop of _calculate_atr_wilder, unrolled as a tail recursion: fuel
counts the remaining iterations, i is the current index, atr_prev the
running accumulator. -/
def wilderAux (trs : List (Option ℚ)) (window : ℕ) : ℕ → ℕ → Option ℚ → List (Option ℚ)
  | 0, _, _ => []
  | fuel + 1, i, atr_prev =>
      (wilderStep trs window i atr_prev).1 ::
        wilderAux trs window fuel (i + 1) (wilderStep trs window i atr_prev).2

/-- Embedding of _calculate_atr_wilder: SMA seed at position window - 1,
exponential smoothing afterwards, accumulator reset to null on any gap. -/
def _calculate_atr_wilder (trs : List (Option ℚ)) (window : ℕ) : List (Option ℚ) :=
  wilderAux trs window trs.length 0 none

/-- The accumulator of the _calculate_atr_wilder loop after fuel further
iterations starting at index i with accumulator atr_prev. -/
def wilderAcc (trs : List (Option ℚ)) (window : ℕ) : ℕ → ℕ → Option ℚ → Option ℚ
  | 0, _, atr_prev => atr_prev
  | fuel + 1, i, atr_prev =>
      wilderAcc trs window fuel (i + 1) (wilderStep trs window i atr_prev).2

/-- The accumulator atr_prev of _calculate_atr_wilder as the loop reaches
index i (before the body at i runs). -/
def wilderAccAt (trs : List (Option ℚ)) (window : ℕ) (i : ℕ) : Option ℚ :=
  wilderAcc trs window i 0 none

/-- Embedding of _calculate_atr: the True Range pass followed by the
method dispatch; an unrecognized method name raises IndicatorsError. -/
def _calculate_atr (highs lows closes : List (Option ℚ)) (window : ℕ)
    (method : String) : Except IndicatorsError (List (Option ℚ)) :=
  let trs := trueRanges highs lows closes
  if method = "sma" then .ok (_calculate_atr_sma trs window)
  else if method = "wilder" then .ok (_calculate_atr_wilder trs window)
  else .error (.unsupportedAtrMethod method)

/-- Embedding of _calculate_prev_high_low: extrema over the window
[max(0, i - window), i) that excludes the current bar; List.max? and
List.min? return none exactly when no non-null price is in the window,
as the Python emptiness guard does. -/
def _calculate_prev_high_low (prices : List (Option ℚ)) (window : ℕ)
    (is_high : Bool) : List (Option ℚ) :=
  (List.range prices.length).map fun i =>
    if i = 0 then none
    else
      let window_prices := (pyslice prices (i - window) i).filterMap id
      if is_high then window_prices.max? else window_prices.min?

/-- Embedding of calculate_indicators: empty-input check, stable sort by
trade_date (Python's sorted), the five indicator passes, and the
per-position assembly of EnhancedDailyItem records.  The ma_windows
argument is Option-valued to mirror the None default replaced by
[20, 60] in the body. -/
def calculate_indicators (items : List TushareDailyItem)
    (ma_windows : Option (List ℕ)) (vol_window : ℕ) (atr_window : ℕ)
    (atr_method : String) (prev_hl_window : ℕ) :
    Except IndicatorsError (List EnhancedDailyItem) :=
  if items = [] then .error .emptyInput
  else
    let ma_windows := ma_windows.getD [20, 60]
    let sorted_items := items.mergeSort fun a b => a.trade_date ≤ b.trade_date
    let closes := sorted_items.map (·.close)
    let highs := sorted_items.map (·.high)
    let lows := sorted_items.map (·.low)
    let vols := sorted_items.map (·.vol)
    let avg_vols := _calculate_avg_vol vols vol_window
    let vol_multiples := _calculate_vol_multiple vols avg_vols
    match _calculate_atr highs lows closes atr_window atr_method with
    | .error e => .error e
    | .ok atrs =>
        let prev_highs := _calculate_prev_high_low highs prev_hl_window true
        let prev_lows := _calculate_prev_high_low lows prev_hl_window false
        .ok <| sorted_items.enum.map fun p =>
          let i := p.1
          let item := p.2
          let ma20_value :=
            if 20 ∈ ma_windows then (_calculate_ma closes 20).getD i none else none
          let ma60_value :=
            if 60 ∈ ma_windows then (_calculate_ma closes 60).getD i none else none
          { toTushareDailyItem := item
            avg_vol_20 := avg_vols.getD i none
            vol_ratio_20 := vol_multiples.getD i none
            ma20 := ma20_value
            ma60 := ma60_value
            atr14 := atrs.getD i none
            prev_high_20 := prev_highs.getD i none
            prev_low_20 := prev_lows.getD i none }

/-- Concrete sample high series used by a witness: twenty bars where
only the high at sorted position 5 is missing. -/
def sampleHighs : List (Option ℚ) :=
  List.replicate 5 (some 10) ++ [none] ++ List.replicate 14 (some 10)

/-- Concrete sample low series used by a witness: twenty present lows. -/
def sampleLows : List (Option ℚ) := List.replicate 20 (some 9)

/-- Concrete sample close series used by a witness: twenty present
closes. -/
def sampleCloses : List (Option ℚ) := List.replicate 20 (some 9)

/-
Helper lemmas: indexing into the per-pass output lists, Python slices,
and the Wilder loop state.
-/

theorem mapRange_getD {α : Type} (n : ℕ) (f : ℕ → α) (d : α) (i : ℕ) (h : i < n) :
    ((List.range n).map f).getD i d = f i := by
  rw [List.getD_eq_getElem?_getD]
  simp [List.getElem?_map, List.getElem?_range, h]

theorem pyslice_length {α : Type} (xs : List α) (s t : ℕ) :
    (pyslice xs s t).length = min (t - s) (xs.length - s) := by
  simp [pyslice]

theorem pyslice_getD {α : Type} (xs : List α) (d : α) (s t k : ℕ)
    (h : k < (pyslice xs s t).length) :
    (pyslice xs s t).getD k d = xs.getD (s + k) d := by
  have hlen := pyslice_length xs s t
  have hk1 : k < t - s := by omega
  have hk2 : k < xs.length - s := by omega
  rw [List.getD_eq_getElem?_getD, List.getD_eq_getElem?_getD]
  unfold pyslice
  rw [List.getElem?_take, List.getElem?_drop]
  simp [hk1, Nat.add_comm s k]

theorem mem_pyslice {α : Type} (xs : List α) (d : α) (s t : ℕ) (x : α)
    (hx : x ∈ pyslice xs s t) :
    ∃ j, s ≤ j ∧ j < t ∧ j < xs.length ∧ xs.getD j d = x := by
  obtain ⟨k, hk, hget⟩ := List.mem_iff_getElem.mp hx
  have hlen := pyslice_length xs s t
  refine ⟨s + k, by omega, by omega, by omega, ?_⟩
  have h1 : (pyslice xs s t).getD k d = xs.getD (s + k) d :=
    pyslice_getD xs d s t k hk
  rw [List.getD_eq_getElem (pyslice xs s t) d hk] at h1
  rw [← h1, hget]

theorem getD_mem_pyslice {α : Type} (xs : List α) (d : α) (s t j : ℕ)
    (hs : s ≤ j) (hj : j < t) (hlen : j < xs.length) :
    xs.getD j d ∈ pyslice xs s t := by
  have hlen' := pyslice_length xs s t
  have hk : j - s < (pyslice xs s t).length := by omega
  have h1 : (pyslice xs s t).getD (j - s) d = xs.getD (s + (j - s)) d :=
    pyslice_getD xs d s t (j - s) hk
  have hj' : s + (j - s) = j := by omega
  rw [hj'] at h1
  rw [← h1, List.getD_eq_getElem (pyslice xs s t) d hk]
  exact List.getElem_mem hk

theorem filterMap_id_length_eq {α : Type} (l : List (Option α))
    (h : ∀ x ∈ l, x.isSome) : (l.filterMap id).length = l.length := by
  induction l with
  | nil => simp
  | cons a t ih =>
    match a, h a (by simp) with
    | some v, _ =>
      simp only [List.filterMap_cons, id_eq, List.length_cons]
      exact congrArg (· + 1) (ih fun x hx => h x (by simp [hx]))

theorem filterMap_id_length_lt {α : Type} (l : List (Option α))
    (hn : none ∈ l) : (l.filterMap id).length < l.length := by
  induction l with
  | nil => simp at hn
  | cons a t ih =>
    rcases List.mem_cons.mp hn with h | h
    · subst h
      simp only [List.filterMap_cons, id_eq, List.length_cons]
      have := List.length_filterMap_le id t
      omega
    · match a with
      | none =>
        simp only [List.filterMap_cons, id_eq, List.length_cons]
        have := List.length_filterMap_le id t
        omega
      | some v =>
        simp only [List.filterMap_cons, id_eq, List.length_cons]
        have := ih h
        omega

theorem avg_vol_length (vols : List (Option ℚ)) (w : ℕ) :
    (_calculate_avg_vol vols w).length = vols.length := by
  simp [_calculate_avg_vol]

theorem ma_length (prices : List (Option ℚ)) (w : ℕ) :
    (_calculate_ma prices w).length = prices.length := by
  simp [_calculate_ma]

theorem trueRanges_length (highs lows closes : List (Option ℚ)) :
    (trueRanges highs lows closes).length = highs.length := by
  simp [trueRanges]

theorem atr_sma_length (trs : List (Option ℚ)) (w : ℕ) :
    (_calculate_atr_sma trs w).length = trs.length := by
  simp [_calculate_atr_sma]

theorem wilderAux_length (trs : List (Option ℚ)) (w : ℕ) :
    ∀ fuel i prev, (wilderAux trs w fuel i prev).length = fuel := by
  intro fuel
  induction fuel with
  | zero => intro i prev; rfl
  | succ n ih => intro i prev; simp [wilderAux, ih]

theorem atr_wilder_length (trs : List (Option ℚ)) (w : ℕ) :
    (_calculate_atr_wilder trs w).length = trs.length :=
  wilderAux_length trs w trs.length 0 none

theorem prev_hl_length (prices : List (Option ℚ)) (w : ℕ) (b : Bool) :
    (_calculate_prev_high_low prices w b).length = prices.length := by
  simp [_calculate_prev_high_low]

theorem avg_vol_getD (vols : List (Option ℚ)) (w i : ℕ) (h : i < vols.length) :
    (_calculate_avg_vol vols w).getD i none =
      (if (pyslice vols (i + 1 - w) (i + 1)).filterMap id = [] then none
       else some (((pyslice vols (i + 1 - w) (i + 1)).filterMap id).sum /
         ((((pyslice vols (i + 1 - w) (i + 1)).filterMap id).length : ℕ) : ℚ))) := by
  unfold _calculate_avg_vol
  exact mapRange_getD vols.length _ none i h

theorem ma_getD (prices : List (Option ℚ)) (w i : ℕ) (h : i < prices.length) :
    (_calculate_ma prices w).getD i none =
      (if i + 1 < w then none
       else if ((pyslice prices (i + 1 - w) (i + 1)).filterMap id).length = w then
         some (((pyslice prices (i + 1 - w) (i + 1)).filterMap id).sum / (w : ℚ))
       else none) := by
  unfold _calculate_ma
  exact mapRange_getD prices.length _ none i h

theorem trueRanges_getD (highs lows closes : List (Option ℚ)) (i : ℕ)
    (h : i < highs.length) :
    (trueRanges highs lows closes).getD i none =
      (match highs.getD i none, lows.getD i none, closes.getD i none with
       | some hv, some lv, some _ =>
           (match (if i > 0 then closes.getD (i - 1) none else none) with
            | none => some (hv - lv)
            | some pc => some (max (hv - lv) (max |hv - pc| |lv - pc|)))
       | _, _, _ => none) := by
  unfold trueRanges
  exact mapRange_getD highs.length _ none i h

theorem atr_sma_getD (trs : List (Option ℚ)) (w i : ℕ) (h : i < trs.length) :
    (_calculate_atr_sma trs w).getD i none =
      (if i + 1 < w then none
       else if ((pyslice trs (i + 1 - w) (i + 1)).filterMap id).length = w then
         some (((pyslice trs (i + 1 - w) (i + 1)).filterMap id).sum / (w : ℚ))
       else none) := by
  unfold _calculate_atr_sma
  exact mapRange_getD trs.length _ none i h

theorem prev_hl_getD (prices : List (Option ℚ)) (w i : ℕ) (b : Bool)
    (h : i < prices.length) :
    (_calculate_prev_high_low prices w b).getD i none =
      (if i = 0 then none
       else if b then ((pyslice prices (i - w) i).filterMap id).max?
       else ((pyslice prices (i - w) i).filterMap id).min?) := by
  unfold _calculate_prev_high_low
  exact mapRange_getD prices.length _ none i h

theorem wilderAux_getD (trs : List (Option ℚ)) (w : ℕ) :
    ∀ k fuel i prev, k < fuel →
      (wilderAux trs w fuel i prev).getD k none =
        (wilderStep trs w (i + k) (wilderAcc trs w k i prev)).1 := by
  intro k
  induction k with
  | zero =>
    intro fuel i prev hk
    match fuel, hk with
    | n + 1, _ => simp [wilderAux, wilderAcc]
  | succ m ih =>
    intro fuel i prev hk
    match fuel, hk with
    | n + 1, _ =>
      have h1 : (wilderAux trs w (n + 1) i prev).getD (m + 1) none =
          (wilderAux trs w n (i + 1) (wilderStep trs w i prev).2).getD m none := by
        simp [wilderAux]
      rw [h1, ih n (i + 1) (wilderStep trs w i prev).2 (by omega)]
      have : i + 1 + m = i + (m + 1) := by omega
      rw [this]
      rfl

theorem wilderAcc_add (trs : List (Option ℚ)) (w : ℕ) :
    ∀ a b i prev, wilderAcc trs w (a + b) i prev =
      wilderAcc trs w b (i + a) (wilderAcc trs w a i prev) := by
  intro a
  induction a with
  | zero => intro b i prev; simp [wilderAcc]
  | succ m ih =>
    intro b i prev
    have h1 : m + 1 + b = m + b + 1 := by omega
    have h2 : wilderAcc trs w (m + b + 1) i prev =
        wilderAcc trs w (m + b) (i + 1) (wilderStep trs w i prev).2 := rfl
    rw [h1, h2, ih b (i + 1) (wilderStep trs w i prev).2]
    have h3 : i + 1 + m = i + (m + 1) := by omega
    rw [h3]
    rfl

theorem wilderAcc_of_lt (trs : List (Option ℚ)) (w : ℕ) :
    ∀ k i prev, i + k < w → wilderAcc trs w k i prev = prev := by
  intro k
  induction k with
  | zero => intro i prev _; rfl
  | succ m ih =>
    intro i prev h
    have hstep : (wilderStep trs w i prev).2 = prev := by
      unfold wilderStep
      rw [if_pos (by omega)]
    have h1 : wilderAcc trs w (m + 1) i prev =
        wilderAcc trs w m (i + 1) (wilderStep trs w i prev).2 := rfl
    rw [h1, hstep]
    exact ih (i + 1) prev (by omega)

theorem wilderStep_none_of_ge (trs : List (Option ℚ)) (w i : ℕ) (h : w ≤ i) :
    wilderStep trs w i none = (none, none) := by
  unfold wilderStep
  rw [if_neg (by omega), if_neg (by omega)]
  match trs.getD i none with
  | some _ => rfl
  | none => rfl

theorem wilderAcc_none_of_ge (trs : List (Option ℚ)) (w : ℕ) :
    ∀ k i, w ≤ i → wilderAcc trs w k i none = none := by
  intro k
  induction k with
  | zero => intro i _; rfl
  | succ m ih =>
    intro i h
    have h1 : wilderAcc trs w (m + 1) i none =
        wilderAcc trs w m (i + 1) (wilderStep trs w i none).2 := rfl
    rw [h1, wilderStep_none_of_ge trs w i h]
    exact ih (i + 1) (by omega)

theorem atr_wilder_getD (trs : List (Option ℚ)) (w i : ℕ) (h : i < trs.length) :
    (_calculate_atr_wilder trs w).getD i none =
      (wilderStep trs w i (wilderAccAt trs w i)).1 := by
  unfold _calculate_atr_wilder wilderAccAt
  rw [wilderAux_getD trs w i trs.length 0 none h]
  simp

theorem wilderAccAt_succ (trs : List (Option ℚ)) (w i : ℕ) :
    wilderAccAt trs w (i + 1) = (wilderStep trs w i (wilderAccAt trs w i)).2 := by
  unfold wilderAccAt
  rw [wilderAcc_add trs w i 1 0 none]
  simp [wilderAcc]

/-
Claim theorems and their witnesses.
-/

/-- Claim C6: True Range per position i of the sorted series: TR is null
when high, low, or close at i is null; at i = 0 (no previous close)
TR = high - low; for every later position i = j + 1 with previous close
pc = close at j present, TR = max(high - low, |high - pc|, |low - pc|). -/
theorem true_range_spec (highs lows closes : List (Option ℚ)) (i : ℕ)
    (hi : i < highs.length) :
    ((highs.getD i none = none ∨ lows.getD i none = none ∨
        closes.getD i none = none) →
      (trueRanges highs lows closes).getD i none = none) ∧
    (∀ h l c, highs.getD i none = some h → lows.getD i none = some l →
      closes.getD i none = some c →
      (i = 0 → (trueRanges highs lows closes).getD i none = some (h - l)) ∧
      (∀ j pc, i = j + 1 → closes.getD j none = some pc →
        (trueRanges highs lows closes).getD i none =
          some (max (h - l) (max |h - pc| |l - pc|)))) := by
  have key := trueRanges_getD highs lows closes i hi
  constructor
  · intro hnull
    rw [key]
    rcases hhigh : highs.getD i none with _ | hv
    · simp [hhigh]
    · rcases hlow : lows.getD i none with _ | lv
      · simp [hhigh, hlow]
      · rcases hclose : closes.getD i none with _ | cv
        · simp [hhigh, hlow, hclose]
        · rcases hnull with h | h | h <;> simp_all
  · intro h l c hh hl hc
    constructor
    · intro h0
      subst h0
      rw [key, hh, hl, hc]
      rfl
    · intro j pc hij hpc
      subst hij
      rw [key, hh, hl, hc]
      simp only [Nat.add_sub_cancel]
      rw [hpc]
      simp

/-- Witness for claim C6 at a concrete two-bar series: the gap branch. -/
theorem true_range_spec_witness :
    (trueRanges [some 10, some 12] [some 9, some 8] [some 9, some 11]).getD 1 none =
      some (max ((12 : ℚ) - 8) (max |(12 : ℚ) - 9| |(8 : ℚ) - 9|)) :=
  ((true_range_spec [some 10, some 12] [some 9, some 8] [some 9, some 11] 1
      (by decide)).2 12 8 11 rfl rfl rfl).2 0 9 rfl rfl

/-- Claim C10: for a position i > 0 where high, low and close are present
but the previous close is null, TR falls back to high - low, exactly as
at position 0; a missing close nulls TR only at its own position, never
at its successor. -/
theorem true_range_prev_close_fallback_spec (highs lows closes : List (Option ℚ))
    (i : ℕ) (hpos : 0 < i) (hi : i < highs.length) (h l c : ℚ)
    (hh : highs.getD i none = some h) (hl : lows.getD i none = some l)
    (hc : closes.getD i none = some c)
    (hprev : closes.getD (i - 1) none = none) :
    (trueRanges highs lows closes).getD i none = some (h - l) := by
  rw [trueRanges_getD highs lows closes i hi, hh, hl, hc, if_pos hpos, hprev]

/-- Witness for claim C10: close is missing at position 0 only, so TR at
position 1 is the single-bar range. -/
theorem true_range_prev_close_fallback_witness :
    (trueRanges [some 10, some 12] [some 9, some 8] [none, some 11]).getD 1 none =
      some ((12 : ℚ) - 8) :=
  true_range_prev_close_fallback_spec [some 10, some 12] [some 9, some 8]
    [none, some 11] 1 (by decide) (by decide) 12 8 11 rfl rfl rfl rfl

/-- Claim C4: the moving average with window w is null below position
w - 1; at position i with w <= i + 1 it is the exact arithmetic mean of
the w closing prices over positions [i + 1 - w, i] when all are present,
and null as soon as one of them is null (all-or-nothing window). -/
theorem ma_window_policy_spec (prices : List (Option ℚ)) (w i : ℕ)
    (hw : 0 < w) (hi : i < prices.length) :
    (i + 1 < w → (_calculate_ma prices w).getD i none = none) ∧
    (w ≤ i + 1 →
      ((∀ x ∈ pyslice prices (i + 1 - w) (i + 1), x.isSome) →
        (_calculate_ma prices w).getD i none =
          some (((pyslice prices (i + 1 - w) (i + 1)).filterMap id).sum / (w : ℚ))) ∧
      (none ∈ pyslice prices (i + 1 - w) (i + 1) →
        (_calculate_ma prices w).getD i none = none)) := by
  have key := ma_getD prices w i hi
  constructor
  · intro hlt
    rw [key, if_pos hlt]
  · intro hge
    have hlen : (pyslice prices (i + 1 - w) (i + 1)).length = w := by
      have h1 : i + 1 - (i + 1 - w) = w := by omega
      rw [pyslice_length, h1, min_eq_left (by omega)]
    constructor
    · intro hall
      have hfull : ((pyslice prices (i + 1 - w) (i + 1)).filterMap id).length = w := by
        rw [filterMap_id_length_eq _ hall, hlen]
      rw [key, if_neg (by omega), if_pos hfull]
    · intro hnone
      have hlt2 : ((pyslice prices (i + 1 - w) (i + 1)).filterMap id).length < w := by
        have := filterMap_id_length_lt _ hnone
        omega
      rw [key, if_neg (by omega), if_neg (by omega)]

/-- Witness for claim C4: window 2 over a three-bar series, full window
at position 1. -/
theorem ma_window_policy_witness :
    (_calculate_ma [some 1, some 3, none] 2).getD 1 none =
      some (((pyslice [some 1, some 3, none] (1 + 1 - 2) (1 + 1)).filterMap id).sum / ((2 : ℕ) : ℚ)) :=
  ((ma_window_policy_spec [some 1, some 3, none] 2 1 (by decide) (by decide)).2
    (by decide)).1 (by decide)

/-- Claim C5: the average volume at position i is the mean of the
non-null volumes over the trailing partial window [max(0, i - w + 1), i]
(Python start max(0, i - w + 1) is the truncated i + 1 - w), null exactly
when every volume there is null; in particular on day 0 with a positive
window it equals the day-0 volume when that is present. -/
theorem avg_vol_partial_window_spec (vols : List (Option ℚ)) (w i : ℕ)
    (hi : i < vols.length) :
    ((_calculate_avg_vol vols w).getD i none =
      (if ((pyslice vols (i + 1 - w) (i + 1)).filterMap id) = [] then none
       else some (((pyslice vols (i + 1 - w) (i + 1)).filterMap id).sum /
         ((((pyslice vols (i + 1 - w) (i + 1)).filterMap id).length : ℕ) : ℚ)))) ∧
    (∀ v, 0 < w → vols.getD 0 none = some v →
      (_calculate_avg_vol vols w).getD 0 none = some v) := by
  constructor
  · exact avg_vol_getD vols w i hi
  · intro v hw h0
    have h0len : 0 < vols.length := by omega
    rw [avg_vol_getD vols w 0 h0len]
    have hsl : pyslice vols (0 + 1 - w) (0 + 1) = vols.take 1 := by
      have : 0 + 1 - w = 0 := by omega
      simp [pyslice, this]
    rcases vols with _ | ⟨a, t⟩
    · simp at h0len
    · have ha : a = some v := h0
      subst ha
      rw [hsl]
      simp

/-- Witness for claim C5: day 0 of a single-bar series with the default
window 20. -/
theorem avg_vol_partial_window_witness :
    (_calculate_avg_vol [some 7] 20).getD 0 none = some 7 :=
  (avg_vol_partial_window_spec [some 7] 20 0 (by decide)).2 7 (by decide) rfl

/-- Claim C7: prior-window extrema: null at position 0; at i > 0 the
prior high (low) is the List.max? (List.min?) of the non-null prices over
[max(0, i - w), i), which excludes the current bar and is none exactly
when the window holds no non-null price. -/
theorem prev_high_low_spec (prices : List (Option ℚ)) (w i : ℕ)
    (hi : i < prices.length) :
    ((_calculate_prev_high_low prices w true).getD 0 none = none ∧
     (_calculate_prev_high_low prices w false).getD 0 none = none) ∧
    (0 < i →
      (_calculate_prev_high_low prices w true).getD i none =
        ((pyslice prices (i - w) i).filterMap id).max? ∧
      (_calculate_prev_high_low prices w false).getD i none =
        ((pyslice prices (i - w) i).filterMap id).min?) := by
  have h0 : 0 < prices.length := by omega
  constructor
  · constructor <;> rw [prev_hl_getD prices w 0 _ h0] <;> rfl
  · intro hpos
    constructor <;> rw [prev_hl_getD prices w i _ hi] <;> rw [if_neg (by omega)] <;> rfl

/-- Witness for claim C7 at position 2 of a three-bar series with
window 2. -/
theorem prev_high_low_witness :
    (_calculate_prev_high_low [some 3, none, some 7] 2 true).getD 2 none =
      ((pyslice [some 3, none, some 7] (2 - 2) 2).filterMap id).max? ∧
    (_calculate_prev_high_low [some 3, none, some 7] 2 false).getD 2 none =
      ((pyslice [some 3, none, some 7] (2 - 2) 2).filterMap id).min? :=
  (prev_high_low_spec [some 3, none, some 7] 2 2 (by decide)).2 (by decide)

/-- Claim C8: for any True Range series and window w, the SMA ATR and the
Wilder ATR are both null strictly below position w - 1, and at position
i = w - 1 they coincide: both are the simple average of the first w true
ranges when all are present, and both null otherwise (shared seed). -/
theorem atr_seed_agreement_spec (trs : List (Option ℚ)) (w i : ℕ)
    (hi : i < trs.length) :
    (i + 1 < w → (_calculate_atr_sma trs w).getD i none = none ∧
                 (_calculate_atr_wilder trs w).getD i none = none) ∧
    (i + 1 = w →
      (_calculate_atr_sma trs w).getD i none =
        (_calculate_atr_wilder trs w).getD i none ∧
      (_calculate_atr_sma trs w).getD i none =
        (if ((trs.take w).filterMap id).length = w
         then some (((trs.take w).filterMap id).sum / (w : ℚ)) else none)) := by
  constructor
  · intro hlt
    constructor
    · rw [atr_sma_getD trs w i hi, if_pos hlt]
    · rw [atr_wilder_getD trs w i hi]
      unfold wilderStep
      rw [if_pos hlt]
  · intro heq
    have hacc : wilderAccAt trs w i = none := by
      unfold wilderAccAt
      exact wilderAcc_of_lt trs w i 0 none (by omega)
    have hsl : pyslice trs (i + 1 - w) (i + 1) = trs.take w := by
      have h1 : i + 1 - w = 0 := by omega
      simp [pyslice, h1, heq]
    have hwil : (_calculate_atr_wilder trs w).getD i none =
        (if ((trs.take w).filterMap id).length = w
         then some (((trs.take w).filterMap id).sum / (w : ℚ)) else none) := by
      rw [atr_wilder_getD trs w i hi, hacc]
      unfold wilderStep
      rw [if_neg (by omega), if_pos heq, heq]
      by_cases hfull : ((trs.take w).filterMap id).length = w
      · rw [if_pos hfull, if_pos hfull]
      · rw [if_neg hfull, if_neg hfull]
    have hsma : (_calculate_atr_sma trs w).getD i none =
        (if ((trs.take w).filterMap id).length = w
         then some (((trs.take w).filterMap id).sum / (w : ℚ)) else none) := by
      rw [atr_sma_getD trs w i hi, if_neg (by omega), hsl]
    exact ⟨by rw [hsma, hwil], hsma⟩

/-- Witness for claim C8: window 2 at seed position 1. -/
theorem atr_seed_agreement_witness :
    (_calculate_atr_sma [some 1, some 3, some 5] 2).getD 1 none =
      (_calculate_atr_wilder [some 1, some 3, some 5] 2).getD 1 none ∧
    (_calculate_atr_sma [some 1, some 3, some 5] 2).getD 1 none =
      (if ((([some 1, some 3, some 5] : List (Option ℚ)).take 2).filterMap id).length = 2
       then some (((([some 1, some 3, some 5] : List (Option ℚ)).take 2).filterMap id).sum / ((2 : ℕ) : ℚ))
       else none) :=
  (atr_seed_agreement_spec [some 1, some 3, some 5] 2 1 (by decide)).2 rfl

/-- Claim C1: under the Wilder method with window w, at every position i
past the seed (w <= i): when TR at i and the previous accumulator are
both present, the output is (prevATR * (w - 1) + TR) / w and this value
becomes the new accumulator; when either is missing the output is null,
the accumulator resets to null, and every later output is null as well,
so the chain never re-seeds after a break. -/
theorem wilder_recurrence_and_break_spec (trs : List (Option ℚ)) (w i : ℕ)
    (hw : w ≤ i) (hi : i < trs.length) :
    (∀ tr prev, trs.getD i none = some tr → wilderAccAt trs w i = some prev →
      (_calculate_atr_wilder trs w).getD i none =
        some ((prev * ((w : ℚ) - 1) + tr) / (w : ℚ)) ∧
      wilderAccAt trs w (i + 1) =
        some ((prev * ((w : ℚ) - 1) + tr) / (w : ℚ))) ∧
    ((trs.getD i none = none ∨ wilderAccAt trs w i = none) →
      wilderAccAt trs w (i + 1) = none ∧
      ∀ j, i ≤ j → j < trs.length →
        (_calculate_atr_wilder trs w).getD j none = none) := by
  have hstep : ∀ p, wilderStep trs w i p =
      (match trs.getD i none, p with
       | some tr, some prev =>
           (some ((prev * ((w : ℚ) - 1) + tr) / (w : ℚ)),
            some ((prev * ((w : ℚ) - 1) + tr) / (w : ℚ)))
       | _, _ => ((none : Option ℚ), (none : Option ℚ))) := by
    intro p
    unfold wilderStep
    rw [if_neg (by omega), if_neg (by omega)]
  constructor
  · intro tr prev htr hacc
    constructor
    · rw [atr_wilder_getD trs w i hi, hacc, hstep, htr]
    · rw [wilderAccAt_succ trs w i, hacc, hstep, htr]
  · intro hbreak
    have hstep_i : wilderStep trs w i (wilderAccAt trs w i) = (none, none) := by
      rw [hstep]
      rcases hbreak with h | h
      · rw [h]
      · rw [h]
        rcases trs.getD i none with _ | t
        · rfl
        · rfl
    have hsucc : wilderAccAt trs w (i + 1) = none := by
      rw [wilderAccAt_succ trs w i, hstep_i]
    refine ⟨hsucc, ?_⟩
    intro j hij hj
    rcases Nat.eq_or_lt_of_le hij with heq | hlt
    · rw [← heq] at hj ⊢
      rw [atr_wilder_getD trs w i hj, hstep_i]
    · have haccj : wilderAccAt trs w j = none := by
        have hdecomp : j = (i + 1) + (j - (i + 1)) := by omega
        have hcalc : wilderAccAt trs w j =
            wilderAcc trs w (j - (i + 1)) (0 + (i + 1)) (wilderAcc trs w (i + 1) 0 none) := by
          unfold wilderAccAt
          rw [← wilderAcc_add trs w (i + 1) (j - (i + 1)) 0 none, ← hdecomp]
        rw [hcalc]
        have hs : wilderAcc trs w (i + 1) 0 none = none := hsucc
        rw [hs, Nat.zero_add]
        exact wilderAcc_none_of_ge trs w (j - (i + 1)) (i + 1) (by omega)
      rw [atr_wilder_getD trs w j hj, haccj, wilderStep_none_of_ge trs w j (by omega)]

/-- Witness for claim C1: window 2, break at position 3 (null TR), so
the accumulator resets and position 4 stays null. -/
theorem wilder_recurrence_and_break_witness :
    wilderAccAt [some 1, some 2, some 3, none, some 5] 2 4 = none ∧
    (_calculate_atr_wilder [some 1, some 2, some 3, none, some 5] 2).getD 4 none = none := by
  have h := wilder_recurrence_and_break_spec [some 1, some 2, some 3, none, some 5] 2 3
    (by decide) (by decide)
  exact ⟨(h.2 (Or.inl rfl)).1, (h.2 (Or.inl rfl)).2 4 (by decide) (by decide)⟩

/-- Claim C3: calculate_indicators signals an error exactly when the
input list is empty or the ATR method is neither sma nor wilder; for a
non-empty input and a recognized method it returns ok, so missing input
values never raise, and an error case carries no partial output since
the result is a single Except value.  The positivity hypotheses mirror
the Python code dividing by each configured window. -/
theorem calculate_indicators_error_iff_spec (items : List TushareDailyItem)
    (mw : Option (List ℕ)) (vw aw : ℕ) (method : String) (pw : ℕ)
    (_hma : ∀ w ∈ mw.getD [20, 60], 0 < w) (_haw : 0 < aw) :
    (∃ e, calculate_indicators items mw vw aw method pw = .error e) ↔
      items = [] ∨ (method ≠ "sma" ∧ method ≠ "wilder") := by
  by_cases hempty : items = []
  · simp [calculate_indicators, hempty]
  · by_cases hsma : method = "sma"
    · simp [calculate_indicators, _calculate_atr, hempty, hsma]
    · by_cases hwilder : method = "wilder"
      · simp [calculate_indicators, _calculate_atr, hempty, hsma, hwilder]
      · simp [calculate_indicators, _calculate_atr, hempty, hsma, hwilder]

/-- Witness for claim C3: a single-bar input with the sma method and the
default configuration returns without error. -/
theorem calculate_indicators_error_iff_witness :
    (∃ e, calculate_indicators
        [⟨"000001.SZ", "20240101", none, none, none, none, none, none, none, none, none⟩]
        none 20 14 "sma" 20 = .error e) ↔
      (([⟨"000001.SZ", "20240101", none, none, none, none, none, none, none, none, none⟩] :
          List TushareDailyItem) = [] ∨
        (("sma" : String) ≠ "sma" ∧ ("sma" : String) ≠ "wilder")) :=
  calculate_indicators_error_iff_spec
    [⟨"000001.SZ", "20240101", none, none, none, none, none, none, none, none, none⟩]
    none 20 14 "sma" 20 (by decide) (by decide)

/-- Claim C2 (Scenario B): in a series where exactly the bar at sorted
position 5 has a null high and every other field at every position is
present, with ATR window 14: TR at position 5 is null; the Wilder ATR is
null at every position from 5 on (the broken chain never re-seeds); the
SMA ATR at position i is null exactly for i <= 18, that is while the
window is incomplete or still overlaps position 5, and is present again
from i = 19 on, once position 5 rolls out of the window. -/
theorem scenarioB_missing_high_spec (highs lows closes : List (Option ℚ))
    (_hl : lows.length = highs.length) (hc : closes.length = highs.length)
    (h5 : 5 < highs.length)
    (hhigh5 : highs.getD 5 none = none)
    (hhigh : ∀ i, i < highs.length → i ≠ 5 → (highs.getD i none).isSome)
    (hlow : ∀ i, i < highs.length → (lows.getD i none).isSome)
    (hclose : ∀ i, i < highs.length → (closes.getD i none).isSome) :
    (trueRanges highs lows closes).getD 5 none = none ∧
    (∀ i, 5 ≤ i → i < highs.length →
      (_calculate_atr_wilder (trueRanges highs lows closes) 14).getD i none = none) ∧
    (∀ i, i < highs.length →
      ((_calculate_atr_sma (trueRanges highs lows closes) 14).getD i none = none ↔
        i ≤ 18)) := by
  set trs := trueRanges highs lows closes with htrs
  have hlen : trs.length = highs.length := trueRanges_length highs lows closes
  have htr5 : trs.getD 5 none = none := by
    rw [htrs, trueRanges_getD highs lows closes 5 h5, hhigh5]
  have htr_some : ∀ j, j < highs.length → j ≠ 5 → (trs.getD j none).isSome := by
    intro j hj hne
    rw [htrs, trueRanges_getD highs lows closes j hj]
    obtain ⟨hv, hhv⟩ := Option.isSome_iff_exists.mp (hhigh j hj hne)
    obtain ⟨lv, hlv⟩ := Option.isSome_iff_exists.mp (hlow j hj)
    obtain ⟨cv, hcv⟩ := Option.isSome_iff_exists.mp (hclose j hj)
    rw [hhv, hlv, hcv]
    rcases Nat.eq_zero_or_pos j with hj0 | hj0
    · subst hj0
      rfl
    · rw [if_pos hj0]
      obtain ⟨pv, hpv⟩ := Option.isSome_iff_exists.mp (hclose (j - 1) (by omega))
      rw [hpv]
      rfl
  have hseedfail : 14 ≤ highs.length →
      ¬((trs.take 14).filterMap id).length = 14 := by
    intro h14
    have hmem : none ∈ trs.take 14 := by
      have hmem' : trs.getD 5 none ∈ pyslice trs 0 14 :=
        getD_mem_pyslice trs none 0 14 5 (by omega) (by omega) (by omega)
      rw [htr5] at hmem'
      have hps : pyslice trs 0 14 = trs.take 14 := by simp [pyslice]
      rw [← hps]
      exact hmem'
    have htk : (trs.take 14).length = 14 := by
      rw [List.length_take]
      omega
    have := filterMap_id_length_lt (trs.take 14) hmem
    omega
  refine ⟨htr5, ?_, ?_⟩
  · intro i h5i hin
    have hin' : i < trs.length := by omega
    rcases Nat.lt_or_ge i 13 with h13 | h13
    · rw [atr_wilder_getD trs 14 i hin']
      unfold wilderStep
      rw [if_pos (by omega)]
    · have h14n : 14 ≤ highs.length := by omega
      have hacc14 : wilderAccAt trs 14 14 = none := by
        rw [wilderAccAt_succ trs 14 13]
        have hacc13 : wilderAccAt trs 14 13 = none :=
          wilderAcc_of_lt trs 14 13 0 none (by omega)
        rw [hacc13]
        unfold wilderStep
        rw [if_neg (by omega), if_pos rfl, if_neg (hseedfail h14n)]
      rcases Nat.eq_or_lt_of_le h13 with h13e | h13l
      · rw [← h13e] at hin' ⊢
        have hacc13 : wilderAccAt trs 14 13 = none :=
          wilderAcc_of_lt trs 14 13 0 none (by omega)
        rw [atr_wilder_getD trs 14 13 hin', hacc13]
        unfold wilderStep
        rw [if_neg (by omega), if_pos rfl, if_neg (hseedfail h14n)]
      · have h14i : 14 ≤ i := by omega
        have hacci : wilderAccAt trs 14 i = none := by
          have hdecomp : i = 14 + (i - 14) := by omega
          have hcalc : wilderAccAt trs 14 i =
              wilderAcc trs 14 (i - 14) (0 + 14) (wilderAcc trs 14 14 0 none) := by
            unfold wilderAccAt
            rw [← wilderAcc_add trs 14 14 (i - 14) 0 none, ← hdecomp]
          rw [hcalc]
          have hs : wilderAcc trs 14 14 0 none = none := hacc14
          rw [hs, Nat.zero_add]
          exact wilderAcc_none_of_ge trs 14 (i - 14) 14 (by omega)
        rw [atr_wilder_getD trs 14 i hin', hacci,
          wilderStep_none_of_ge trs 14 i (by omega)]
  · intro i hin
    have hin' : i < trs.length := by omega
    have key := atr_sma_getD trs 14 i hin'
    rcases Nat.lt_or_ge i 13 with h13 | h13
    · rw [key, if_pos (by omega)]
      exact iff_of_true rfl (by omega)
    · have hslen : (pyslice trs (i + 1 - 14) (i + 1)).length = 14 := by
        have h1 : i + 1 - (i + 1 - 14) = 14 := by omega
        rw [pyslice_length, h1, min_eq_left (by omega)]
      rcases Nat.lt_or_ge i 19 with h19 | h19
      · have hmem : none ∈ pyslice trs (i + 1 - 14) (i + 1) := by
          have hmem' : trs.getD 5 none ∈ pyslice trs (i + 1 - 14) (i + 1) :=
            getD_mem_pyslice trs none (i + 1 - 14) (i + 1) 5 (by omega) (by omega) (by omega)
          rw [htr5] at hmem'
          exact hmem'
        have hltlen := filterMap_id_length_lt _ hmem
        rw [key, if_neg (by omega), if_neg (by omega)]
        exact iff_of_true rfl (by omega)
      · have hall : ∀ x ∈ pyslice trs (i + 1 - 14) (i + 1), x.isSome := by
          intro x hx
          obtain ⟨j, hj1, hj2, hj3, hj4⟩ :=
            mem_pyslice trs none (i + 1 - 14) (i + 1) x hx
          rw [← hj4]
          exact htr_some j (by omega) (by omega)
        have hfull : ((pyslice trs (i + 1 - 14) (i + 1)).filterMap id).length = 14 := by
          rw [filterMap_id_length_eq _ hall, hslen]
        rw [key, if_neg (by omega), if_pos hfull]
        exact iff_of_false (by simp) (by omega)

/-- Witness for claim C2: the concrete twenty-bar sample series with the
high missing exactly at position 5, checked at position 19. -/
theorem scenarioB_missing_high_witness :
    (trueRanges sampleHighs sampleLows sampleCloses).getD 5 none = none ∧
    (_calculate_atr_wilder (trueRanges sampleHighs sampleLows sampleCloses) 14).getD 19 none =
      none ∧
    ((_calculate_atr_sma (trueRanges sampleHighs sampleLows sampleCloses) 14).getD 19 none =
        none ↔ 19 ≤ 18) := by
  have h := scenarioB_missing_high_spec sampleHighs sampleLows sampleCloses
    (by decide) (by decide) (by decide) (by decide) (by decide) (by decide) (by decide)
  exact ⟨h.1, h.2.1 19 (by decide) (by decide), h.2.2 19 (by decide)⟩

theorem sorted_by_date (l : List TushareDailyItem) :
    (l.mergeSort fun a b => a.trade_date ≤ b.trade_date).Pairwise
      (fun a b => a.trade_date ≤ b.trade_date) := by
  have h := @List.sorted_mergeSort TushareDailyItem
      (fun a b => decide (a.trade_date ≤ b.trade_date))
      (fun a b c h₁ h₂ => by
        simp only [decide_eq_true_eq] at *
        exact le_trans h₁ h₂)
      (fun a b => by
        simp only [Bool.or_eq_true, decide_eq_true_eq]
        exact le_total a.trade_date b.trade_date)
      l
  simpa using h

theorem mergeSort_eq_of_perm_nodup (l₁ l₂ : List TushareDailyItem)
    (hperm : l₁.Perm l₂)
    (hnd : (l₂.map (fun b => b.trade_date)).Nodup) :
    l₁.mergeSort (fun a b => a.trade_date ≤ b.trade_date) =
      l₂.mergeSort (fun a b => a.trade_date ≤ b.trade_date) := by
  have hp : (l₁.mergeSort fun a b => a.trade_date ≤ b.trade_date).Perm
      (l₂.mergeSort fun a b => a.trade_date ≤ b.trade_date) :=
    (List.mergeSort_perm l₁ _).trans (hperm.trans (List.mergeSort_perm l₂ _).symm)
  have hnd₂ : ((l₂.mergeSort fun a b => a.trade_date ≤ b.trade_date).map
      (fun b => b.trade_date)).Nodup :=
    (List.Perm.nodup_iff ((List.mergeSort_perm l₂ _).map (fun b => b.trade_date))).mpr hnd
  have hnd₁ : ((l₁.mergeSort fun a b => a.trade_date ≤ b.trade_date).map
      (fun b => b.trade_date)).Nodup :=
    (List.Perm.nodup_iff (hp.map (fun b => b.trade_date))).mpr hnd₂
  have hlt₁ : (l₁.mergeSort fun a b => a.trade_date ≤ b.trade_date).Pairwise
      (fun a b => a.trade_date < b.trade_date) :=
    ((sorted_by_date l₁).and (List.pairwise_map.mp hnd₁)).imp
      (fun h => lt_of_le_of_ne h.1 h.2)
  have hlt₂ : (l₂.mergeSort fun a b => a.trade_date ≤ b.trade_date).Pairwise
      (fun a b => a.trade_date < b.trade_date) :=
    ((sorted_by_date l₂).and (List.pairwise_map.mp hnd₂)).imp
      (fun h => lt_of_le_of_ne h.1 h.2)
  haveI : IsAntisymm TushareDailyItem (fun a b => a.trade_date < b.trade_date) :=
    ⟨fun a b h1 h2 => absurd (lt_trans h1 h2) (lt_irrefl _)⟩
  exact List.eq_of_perm_of_sorted hp hlt₁ hlt₂

theorem enum_map_comp_snd {α β : Type} (l : List α) (g : α → β) :
    l.enum.map (fun p => g p.2) = l.map g := by
  have h : (fun p : ℕ × α => g p.2) = g ∘ Prod.snd := rfl
  rw [h, ← List.map_map, List.enum_map_snd]

/-- Claim C9: for a non-empty bar list with unique trade dates,
calculate_indicators returns the same output on every permutation of the
list, and any ok output is sorted ascending by trade date, so each
per-index derived value agrees with the run on the pre-sorted input. -/
theorem permutation_invariance_spec (items itemsP : List TushareDailyItem)
    (mw : Option (List ℕ)) (vw aw : ℕ) (method : String) (pw : ℕ)
    (hne : items ≠ [])
    (hnd : (items.map (fun b => b.trade_date)).Nodup)
    (hperm : itemsP.Perm items) :
    calculate_indicators itemsP mw vw aw method pw =
      calculate_indicators items mw vw aw method pw ∧
    (∀ out, calculate_indicators items mw vw aw method pw = .ok out →
      (out.map (fun b => b.trade_date)).Sorted (· ≤ ·)) := by
  have hneP : itemsP ≠ [] := by
    intro h
    apply hne
    have hlen := hperm.length_eq
    rw [h] at hlen
    exact List.length_eq_zero.mp hlen.symm
  have hms : itemsP.mergeSort (fun a b => a.trade_date ≤ b.trade_date) =
      items.mergeSort (fun a b => a.trade_date ≤ b.trade_date) :=
    mergeSort_eq_of_perm_nodup itemsP items hperm hnd
  refine ⟨?_, ?_⟩
  · unfold calculate_indicators
    rw [if_neg hneP, if_neg hne, hms]
  · intro out hout
    have hmap : out.map (fun b => b.trade_date) =
        (items.mergeSort fun a b => a.trade_date ≤ b.trade_date).map
          (fun b => b.trade_date) := by
      by_cases hsma : method = "sma"
      · subst hsma
        simp only [calculate_indicators, _calculate_atr, if_neg hne, String.reduceEq,
          reduceIte, Except.ok.injEq] at hout
        rw [← hout, List.map_map]
        exact enum_map_comp_snd
          (items.mergeSort fun a b => a.trade_date ≤ b.trade_date)
          (fun b : TushareDailyItem => b.trade_date)
      · by_cases hwilder : method = "wilder"
        · subst hwilder
          simp only [calculate_indicators, _calculate_atr, if_neg hne, String.reduceEq,
            reduceIte, Except.ok.injEq] at hout
          rw [← hout, List.map_map]
          exact enum_map_comp_snd
            (items.mergeSort fun a b => a.trade_date ≤ b.trade_date)
            (fun b : TushareDailyItem => b.trade_date)
        · simp only [calculate_indicators, _calculate_atr, if_neg hne, if_neg hsma,
            if_neg hwilder] at hout
          exact absurd hout (by simp)
    rw [hmap]
    exact List.pairwise_map.mpr (sorted_by_date items)

/-- Witness for claim C9: two bars fed in descending date order give the
same output as the ascending order, and the ok output is date-sorted. -/
theorem permutation_invariance_witness :
    calculate_indicators
        [⟨"X", "20240102", none, none, none, none, none, none, none, none, none⟩,
         ⟨"X", "20240101", none, none, none, none, none, none, none, none, none⟩]
        none 20 14 "sma" 20 =
      calculate_indicators
        [⟨"X", "20240101", none, none, none, none, none, none, none, none, none⟩,
         ⟨"X", "20240102", none, none, none, none, none, none, none, none, none⟩]
        none 20 14 "sma" 20 ∧
    (∀ out, calculate_indicators
        [⟨"X", "20240101", none, none, none, none, none, none, none, none, none⟩,
         ⟨"X", "20240102", none, none, none, none, none, none, none, none, none⟩]
        none 20 14 "sma" 20 = .ok out →
      (out.map (fun b => b.trade_date)).Sorted (· ≤ ·)) :=
  permutation_invariance_spec
    [⟨"X", "20240101", none, none, none, none, none, none, none, none, none⟩,
     ⟨"X", "20240102", none, none, none, none, none, none, none, none, none⟩]
    [⟨"X", "20240102", none, none, none, none, none, none, none, none, none⟩,
     ⟨"X", "20240101", none, none, none, none, none, none, none, none, none⟩]
    none 20 14 "sma" 20 (by decide) (by decide) (by decide)
